import Mathlib

/-! # Machine removals and backup origins of the juju state layer

A shallow embedding of `state/machineremovals.go` and
`state/backups/metadata/origin.go`, followed by the properties the
specification states about them.

Conventions of the embedding

* The database behind `*State` is an explicit value of type `State`; an
  operation that may write returns the state it leaves behind.
* A Go `error` is an `Option Error` (`none` is `nil`); a `(value, error)`
  pair is an `Except Error value`.
* `logger.Debugf` output and the batches handed to `runTransaction` are
  returned next to the result, so that "logs" and "submits no transaction"
  are statements about values.
* A store that cannot be reached is a state whose `fault` is set: every read
  and every transaction then fails with that error and changes nothing.
* Helpers of the package that live in other files (the transaction runner,
  `onAbort`, `removeOps`, the collection names) are modelled from the
  specification; each such definition says so.
-/

namespace Juju

/-! ## Errors -/

/-- A Go `error` value: the sentinel `txn.ErrAborted`, or an error that
carries a message (`errors.Errorf`, an annotated error, a store failure). -/
inductive Error where
  | ErrAborted
  | Errorf (msg : String)
  deriving DecidableEq

/-- The `Error()` string of an error. -/
def Error.Error : Error → String
  | .ErrAborted => "transaction aborted"
  | .Errorf msg => msg

/-- The function `errors.Trace`: records the call site; the message and the
cause of the error are those of its argument. -/
def Trace (e : Error) : Error := e

/-- The function `errors.Annotatef(err, prefix)`: the message becomes
`prefix: message`. -/
def Annotatef (e : Error) (pre : String) : Error :=
  .Errorf (pre ++ ": " ++ e.Error)

/-- The function `errors.DeferredAnnotatef(&err, prefix)`: annotates the
error a function is about to return when there is one. -/
def DeferredAnnotatef (err : Option Error) (pre : String) : Option Error :=
  match err with
  | none => none
  | some e => some (Annotatef e pre)

/-! ## Documents and the store -/

/-- Modelled from the spec: the lifecycle state of a machine (§3: Alive,
Dying, Dead); the type `Life` is declared outside the files at hand. -/
inductive Life where
  | Alive
  | Dying
  | Dead
  deriving DecidableEq

/-- Modelled from the spec: the part of `machineDoc` this code reads (§3, §6):
the document key `_id`, the machine id (`machineid`) and `life`. The struct is
declared outside the files at hand. -/
structure machineDoc where
  DocID : String
  Id : String
  Life : Life
  deriving DecidableEq

/-- The struct `machineRemovalDoc` (machineremovals.go:18): this machine
needs to be removed. -/
structure machineRemovalDoc where
  DocID : String
  MachineID : String
  deriving DecidableEq

/-- Modelled from the spec: the names of the collections (§2, §6). The
constants `machinesC` and `machineRemovalsC` are declared outside the files at
hand; every other collection (the ones holding a machine's dependent
documents) is `dependentC name`. -/
inductive Collection where
  | machinesC
  | machineRemovalsC
  | dependentC (name : String)
  deriving DecidableEq

/-- The database behind a `*State`: the machines collection, the
machine-removals collection, the keys of the documents of every other
collection, and whether the store can be reached (`fault = some msg` makes
every read and every transaction fail with `msg`). -/
structure State where
  fault : Option String
  machines : List machineDoc
  machineRemovals : List machineRemovalDoc
  dependents : List (String × String)
  deriving DecidableEq

/-- A `*Machine`: a snapshot of a machine document (the `st` field is the
`State` passed alongside). -/
structure Machine where
  doc : machineDoc
  deriving DecidableEq

/-- The method `Machine.Id`. -/
def Machine.Id (m : Machine) : String := m.doc.Id

/-- The method `Machine.globalKey`: the key of the documents that hang off
the machine. The key function `gk` (declared outside the files at hand) is a
parameter; the spec's glossary requires it to be deterministic and
collision-free. -/
def Machine.globalKey (gk : String → String) (m : Machine) : String := gk m.doc.Id

/-- The function `newMachine(st, &doc)`: a machine holding a copy of the
document. -/
def newMachine (doc : machineDoc) : Machine := ⟨doc⟩

/-! ## The transaction engine -/

/-- Modelled from the spec: the assertions of §4.1 ("field Life equals Dead",
"document exists", "document does not exist"). -/
inductive Assertion where
  | isDeadDoc
  | DocExists
  | DocMissing
  deriving DecidableEq

/-- A `txn.Op`: target collection `C`, target document `Id`, an optional
`Assert`, an optional `Insert` payload (this code inserts removal documents
only) and the `Remove` flag. -/
structure Op where
  C : Collection
  Id : String
  Assert : Option Assertion := none
  Insert : Option machineRemovalDoc := none
  Remove : Bool := false
  deriving DecidableEq

/-- Whether a document with key `id` is stored in collection `c`. -/
def docExists (st : State) (c : Collection) (id : String) : Bool :=
  match c with
  | .machinesC => st.machines.any (fun d => d.DocID == id)
  | .machineRemovalsC => st.machineRemovals.any (fun r => r.DocID == id)
  | .dependentC name => st.dependents.any (fun p => p == (name, id))

/-- Modelled from the spec: whether the assertion of an operation holds on
the stored document it names (§4.1). `isDeadDoc` holds when the document is
stored and its life is Dead. -/
def assertHolds (st : State) (op : Op) : Bool :=
  match op.Assert with
  | none => true
  | some .DocExists => docExists st op.C op.Id
  | some .DocMissing => !docExists st op.C op.Id
  | some .isDeadDoc =>
    match op.C with
    | .machinesC =>
      match st.machines.find? (fun d => d.DocID == op.Id) with
      | some d => d.Life == Life.Dead
      | none => false
    | _ => false

/-- Modelled from the spec: the effect of one operation of an accepted batch
(§4.1). A remove deletes the document when it is there; an insert stores the
payload under the operation's key unless that key is taken (the duplicate is
absorbed, §4.2). This code never inserts into the machines collection. -/
def applyOp (st : State) (op : Op) : State :=
  if op.Remove then
    match op.C with
    | .machinesC => { st with machines := st.machines.filter (fun d => d.DocID != op.Id) }
    | .machineRemovalsC =>
      { st with machineRemovals := st.machineRemovals.filter (fun r => r.DocID != op.Id) }
    | .dependentC name =>
      { st with dependents := st.dependents.filter (fun p => p != (name, op.Id)) }
  else
    match op.Insert with
    | none => st
    | some payload =>
      if docExists st op.C op.Id then st
      else
        match op.C with
        | .machinesC => st
        | .machineRemovalsC =>
          { st with machineRemovals := st.machineRemovals ++ [{ payload with DocID := op.Id }] }
        | .dependentC name => { st with dependents := st.dependents ++ [(name, op.Id)] }

/-- Modelled from the spec: the transaction engine behind
`State.runTransaction` (§4.1), which lives outside the files at hand. An
unreachable store reports its failure; otherwise every assertion is evaluated
on the stored documents and the batch applies as a whole, or it is rejected
as a whole with `txn.ErrAborted`. -/
def runTransaction (st : State) (ops : List Op) : Option Error × State :=
  match st.fault with
  | some msg => (some (.Errorf msg), st)
  | none =>
    if ops.all (assertHolds st) then (none, ops.foldl applyOp st)
    else (some .ErrAborted, st)

/-- Modelled from the spec: the helper `onAbort(txnErr, err)` (§7: an aborted
transaction is translated into the domain error, anything else is passed
on); it lives outside the files at hand. -/
def onAbort (txnErr : Option Error) (err : Error) : Option Error :=
  match txnErr with
  | none => none
  | some .ErrAborted => some (Trace err)
  | some e => some (Trace e)

/-! ## machineremovals.go -/

/-- The method `Machine.MarkForRemoval` (machineremovals.go:25): requests
that the machine be removed once provider-level cleanup is done. Returns the
error and the state left behind. -/
def Machine.MarkForRemoval (gk : String → String) (st : State) (m : Machine) :
    Option Error × State :=
  let pre := "cannot remove machine " ++ m.doc.Id
  if m.doc.Life ≠ Life.Dead then
    (DeferredAnnotatef (some (.Errorf "machine is not dead")) pre, st)
  else
    let ops : List Op := [
      { C := .machinesC, Id := m.doc.DocID, Assert := some .isDeadDoc },
      { C := .machineRemovalsC, Id := m.globalKey gk,
        Insert := some { DocID := "", MachineID := m.Id } }]
    let r := runTransaction st ops
    (DeferredAnnotatef (onAbort r.1 (.Errorf "machine is not dead")) pre, r.2)

/-- The method `State.AllMachineRemovals` (machineremovals.go:48): the ids of
the machines that need to be removed, one per removal document, in the order
the query returns them. The state is returned to show the read leaves it
alone. -/
def AllMachineRemovals (st : State) : Except Error (List String) × State :=
  match st.fault with
  | some msg => (.error (Trace (.Errorf msg)), st)
  | none => (.ok (st.machineRemovals.map (fun d => d.MachineID)), st)

/-- The method `State.allMachinesMatching` (machineremovals.go:64) for the
query this file builds, `machineid ∈ ids`. -/
def allMachinesMatching (st : State) (ids : List String) : Except Error (List Machine) × State :=
  match st.fault with
  | some msg => (.error (Trace (.Errorf msg)), st)
  | none => (.ok ((st.machines.filter (fun d => decide (d.Id ∈ ids))).map newMachine), st)

/-- The function `plural` (machineremovals.go:80). -/
def plural (count : Nat) : String :=
  if count = 1 then "" else "s"

/-- Go's `a <= b` on strings: the lexicographic order of the bytes, which on
UTF-8 text is the lexicographic order of the characters. -/
def strLe (a b : String) : Prop := a.toList ≤ b.toList

instance strLe.decidable : DecidableRel strLe :=
  fun a b => inferInstanceAs (Decidable (a.toList ≤ b.toList))

/-- The function `sort.Strings`: sorts a list of strings in increasing
order. -/
def sortStrings (xs : List String) : List String := xs.insertionSort strLe

/-- The type `set.Strings` of the utils library: a finite set of strings,
kept as the list of its members, each once. -/
structure Strings where
  values : List String
  deriving DecidableEq

/-- The method `Strings.Add`. -/
def Strings.Add (s : Strings) (value : String) : Strings :=
  if value ∈ s.values then s else ⟨s.values ++ [value]⟩

/-- The function `set.NewStrings`: the set of the given values. -/
def NewStrings (initial : List String) : Strings :=
  initial.foldl Strings.Add ⟨[]⟩

/-- The method `Strings.Contains`. -/
def Strings.Contains (s : Strings) (value : String) : Bool :=
  decide (value ∈ s.values)

/-- The method `Strings.Difference`: the members of `s` that are not in
`other`. -/
def Strings.Difference (s other : Strings) : Strings :=
  ⟨s.values.filter (fun v => !other.Contains v)⟩

/-- The method `Strings.SortedValues`: the members in increasing order. -/
def Strings.SortedValues (s : Strings) : List String := sortStrings s.values

/-- The function `collectMissingMachineIds` (machineremovals.go:87): the
expected ids that no machine carries, as a sorted list without repeats. -/
def collectMissingMachineIds (expectedIds : List String) (machines : List Machine) :
    List String :=
  let expectedSet := NewStrings expectedIds
  let actualSet := machines.foldl (fun s machine => s.Add machine.Id) (NewStrings [])
  (expectedSet.Difference actualSet).SortedValues

/-- The body of the loop of `CompleteMachineRemovals` (machineremovals.go:122):
a machine without a removal record is noted in `missingRemovals`; for every
other machine the removal of its record and the operations of its own
`removeOps` are appended to `ops`. An error of `removeOps` ends the call. -/
def collectRemovalOps (gk : String → String) (removeOps : Machine → Except Error (List Op))
    (removalSet : Strings) :
    List Machine → List Op → List String → Except Error (List Op × List String)
  | [], ops, missingRemovals => .ok (ops, missingRemovals)
  | machine :: rest, ops, missingRemovals =>
    if !removalSet.Contains machine.Id then
      collectRemovalOps gk removeOps removalSet rest ops (missingRemovals ++ [machine.Id])
    else
      let ops1 := ops ++ [{ C := .machineRemovalsC, Id := machine.globalKey gk, Remove := true }]
      match removeOps machine with
      | .error err => .error (Trace err)
      | .ok removeMachineOps =>
        collectRemovalOps gk removeOps removalSet rest (ops1 ++ removeMachineOps) missingRemovals

/-- What a call of `CompleteMachineRemovals` does: the error it returns, the
debug messages it logs, the batches it submits to the transaction engine, and
the state it leaves behind. -/
structure Completion where
  err : Option Error
  logged : List String
  submitted : List (List Op)
  st : State
  deriving DecidableEq

/-- The method `State.CompleteMachineRemovals` (machineremovals.go:100):
finishes the removal of the machines with the given ids. `removeOps` is the
machine's own removal-operation builder, `gk` the global-key function. -/
def CompleteMachineRemovals (gk : String → String)
    (removeOps : Machine → Except Error (List Op)) (st : State) (ids : List String) :
    Completion :=
  match AllMachineRemovals st with
  | (.error err, st1) => ⟨some (Trace err), [], [], st1⟩
  | (.ok removals, st1) =>
    let removalSet := NewStrings removals
    match allMachinesMatching st1 ids with
    | (.error err, st2) => ⟨some (Trace err), [], [], st2⟩
    | (.ok machinesToRemove, st2) =>
      let logged :=
        if machinesToRemove.length < ids.length then
          let missingMachines := collectMissingMachineIds ids machinesToRemove
          ["skipping nonexistent machine" ++ plural missingMachines.length ++ ": "
            ++ ", ".intercalate missingMachines]
        else []
      match collectRemovalOps gk removeOps removalSet machinesToRemove [] [] with
      | .error err => ⟨some err, logged, [], st2⟩
      | .ok (ops, missingRemovals) =>
        if missingRemovals.length > 0 then
          let sorted := sortStrings missingRemovals
          ⟨some (.Errorf ("cannot remove machine" ++ plural sorted.length ++ " "
              ++ ", ".intercalate sorted ++ ": not marked for removal")),
            logged, [], st2⟩
        else
          let r := runTransaction st2 ops
          ⟨r.1, logged, [ops], r.2⟩

/-- Modelled from the spec: the machine's removal-operation builder
`Machine.removeOps` (§6), which lives outside the files at hand: the
operations that delete the machine document and its dependent documents, the
latter stored under the machine's global key in the collections `deps`. -/
def Machine.removeOps (gk : String → String) (deps : List String) (m : Machine) :
    Except Error (List Op) :=
  .ok ({ C := .machinesC, Id := m.doc.DocID, Remove := true } ::
    deps.map (fun name => { C := .dependentC name, Id := m.globalKey gk, Remove := true }))

/-! ## Well-formed stores and sample data -/

/-- The schema of the two collections: document keys are unique within a
collection, and a removal record is stored under the global key of the
machine it names. -/
structure State.WF (gk : String → String) (st : State) : Prop where
  machineKeys : (st.machines.map (fun d => d.DocID)).Nodup
  removalKeys : (st.machineRemovals.map (fun r => r.DocID)).Nodup
  removalKeyed : ∀ r ∈ st.machineRemovals, r.DocID = gk r.MachineID

/-- The stored machine document under key `docID` exists and is Dead: the
condition the assertion `isDeadDoc` tests. -/
def State.holdsDead (st : State) (docID : String) : Prop :=
  ∃ d, st.machines.find? (fun d => d.DocID == docID) = some d ∧ d.Life = Life.Dead

/-- A sample global-key function: the machine id behind the marker `m#`. -/
def sampleKey (id : String) : String := "m#" ++ id

/-- A sample store: machines 0 (Dead, marked for removal), 1 (Alive) and
2 (Dead, not marked), and one dependent document of machine 0. -/
def sampleState : State :=
  { fault := none
    machines := [⟨"u:0", "0", .Dead⟩, ⟨"u:1", "1", .Alive⟩, ⟨"u:2", "2", .Dead⟩]
    machineRemovals := [⟨"m#0", "0"⟩]
    dependents := [("statuses", "m#0")] }

/-- The sample store when it cannot be reached. -/
def sampleDown : State := { sampleState with fault := some "connection refused" }

/-! ## backups/metadata/origin.go -/

/-- The struct `Origin` (origin.go:11): where a backup archive came from. The
type `version.Number` is declared outside the files at hand and is a
parameter. -/
structure Origin (Number : Type) where
  environment : String
  machine : String
  hostname : String
  version : Number
  deriving DecidableEq

/-- The function `NewOrigin` (origin.go:19). -/
def NewOrigin {Number : Type} (env machine hostname : String) (vers : Number) : Origin Number :=
  { environment := env, machine := machine, hostname := hostname, version := vers }

/-- The method `Origin.Environment` (origin.go:30). A method on `*Origin` is
a function from the receiver to its result and the receiver afterwards. -/
def Origin.Environment {Number : Type} (o : Origin Number) : String × Origin Number :=
  (o.environment, o)

/-- The method `Origin.Machine` (origin.go:35). -/
def Origin.Machine {Number : Type} (o : Origin Number) : String × Origin Number :=
  (o.machine, o)

/-- The method `Origin.Hostname` (origin.go:40). -/
def Origin.Hostname {Number : Type} (o : Origin Number) : String × Origin Number :=
  (o.hostname, o)

/-- The method `Origin.Version` (origin.go:45). -/
def Origin.Version {Number : Type} (o : Origin Number) : Number × Origin Number :=
  (o.version, o)

/-! ## The backup metadata catalog -/

/-- Modelled from the spec: a backup metadata record (§3, §6): identifier,
notes, creation timestamp (nanoseconds since the epoch), checksum, checksum
format, size, origin and the stored flag. The type `metadata.Metadata` is
declared outside the files at hand. -/
structure Metadata (Number : Type) where
  id : String
  notes : String
  timestamp : Int
  checksum : String
  checksumFormat : String
  size : Int
  origin : Origin Number
  stored : Bool
  deriving DecidableEq

/-- Modelled from the spec: the seconds of a timestamp, what
`Timestamp().Unix()` returns in backups_test.go. -/
def Unix (t : Int) : Int := t / 1000000000

/-- Modelled from the spec: the constructor `metadata.NewMetadata(origin,
notes, started)` that backups_test.go calls (§3: constructed client-side, not
yet persisted): no identifier, nothing attached, not stored, and the timestamp
defaults to the creation time `now` when `started` is not given. -/
def NewMetadata {Number : Type} (now : Int) (origin : Origin Number) (notes : String)
    (started : Option Int) : Metadata Number :=
  { id := "", notes := notes, timestamp := started.getD now, checksum := "",
    checksumFormat := "", size := 0, origin := origin, stored := false }

/-- Modelled from the spec: the method `Metadata.Finish(size, checksum,
checksumFormat, _)` that backups_test.go calls (§3: "finished", checksum and
size attached). -/
def Metadata.Finish {Number : Type} (m : Metadata Number) (size : Int)
    (checksum checksumFormat : String) : Metadata Number :=
  { m with size := size, checksum := checksum, checksumFormat := checksumFormat }

/-- Modelled from the spec: a record is finished when a checksum and a size
are attached to it (§3); the zero-value record is not (§4.3, §9: validation
rejects it, the required fields being the checksum and the size). -/
def Metadata.finished {Number : Type} (m : Metadata Number) : Bool :=
  m.checksum != "" && m.size != 0

/-- Modelled from the spec: the error kinds of the catalog (§7). -/
inductive CatalogError where
  | NotFound
  | AlreadyExists
  | Validation
  deriving DecidableEq

/-- Modelled from the spec: the identifier generator (§6, §4.3: any scheme
whose result is unused at insert time): an identifier longer than every
identifier in use. -/
def newBackupID (used : List String) : String :=
  String.mk (List.replicate ((used.map String.length).foldr max 0 + 1) 'b')

/-- Modelled from the spec: `Get(id)` of §4.3 (`state.GetBackupMetadata`,
whose body is outside the files at hand): exact-match lookup by identifier,
"not found" when absent. The catalog is the list of its records. -/
def GetBackupMetadata {Number : Type} (cat : List (Metadata Number)) (id : String) :
    Except CatalogError (Metadata Number) :=
  match cat.find? (fun d => d.id == id) with
  | some d => .ok d
  | none => .error .NotFound

/-- Modelled from the spec: the insert under a given identifier of §4.3
(`state.AddBackupMetadataID`, whose body is outside the files at hand): a
record that is not finished fails validation, a taken identifier is "already
exists", otherwise the record is stored under the identifier. The store keeps
the timestamp in whole seconds, the precision at which backups_test.go
compares it. -/
def AddBackupMetadataID {Number : Type} (cat : List (Metadata Number))
    (metadata : Metadata Number) (id : String) :
    Option CatalogError × List (Metadata Number) :=
  if !metadata.finished then (some .Validation, cat)
  else if cat.any (fun d => d.id == id) then (some .AlreadyExists, cat)
  else (none,
    cat ++ [{ metadata with id := id, timestamp := Unix metadata.timestamp * 1000000000 }])

/-- Modelled from the spec: `Insert(metadata)` of §4.3
(`state.AddBackupMetadata`, whose body is outside the files at hand): the
catalog generates the identifier (whatever the record carries, as
TestBackupsAddBackupMetadataGeneratedID checks) and returns it. -/
def AddBackupMetadata {Number : Type} (cat : List (Metadata Number))
    (metadata : Metadata Number) : Except CatalogError String × List (Metadata Number) :=
  let id := newBackupID (cat.map (fun d => d.id))
  match AddBackupMetadataID cat metadata id with
  | (none, cat2) => (.ok id, cat2)
  | (some err, cat2) => (.error err, cat2)

/-! ## Helper definitions of the proofs -/

/-- The state a committed `MarkForRemoval` leaves behind: the removal record
is appended unless its key is taken. -/
def markedState (gk : String → String) (st : State) (m : Machine) : State :=
  if st.machineRemovals.any (fun r => r.DocID == gk m.doc.Id) then st
  else { st with machineRemovals := st.machineRemovals ++ [⟨gk m.doc.Id, m.doc.Id⟩] }

/-- The ids of the machines of a list that have no removal record in the
set. -/
def unmarkedOf (removalSet : Strings) (machines : List Machine) : List String :=
  (machines.filter (fun m => !removalSet.Contains m.Id)).map Machine.Id

/-- The ids of the matched machines without a removal record, as the store
lists them: the machines whose id is requested and is carried by no removal
record. -/
def unmarkedIds (st : State) (ids : List String) : List String :=
  (st.machines.filter (fun d =>
    decide (d.Id ∈ ids) && !decide (d.Id ∈ st.machineRemovals.map (fun r => r.MachineID)))).map
    (fun d => d.Id)

/-- The error message of `CompleteMachineRemovals` for a list of unmarked
machine ids (machineremovals.go:143). -/
def notMarkedMessage (names : List String) : String :=
  "cannot remove machine" ++ plural names.length ++ " " ++ ", ".intercalate names
    ++ ": not marked for removal"

/-- The batch `CompleteMachineRemovals` builds for a list of marked machines
with the modelled `removeOps`: for each machine, the removal of its record
followed by the operations of `removeOps`. -/
def removalBatch (gk : String → String) (deps : List String) : List Machine → List Op
  | [] => []
  | m :: rest =>
    ({ C := .machineRemovalsC, Id := m.globalKey gk, Remove := true } ::
      { C := .machinesC, Id := m.doc.DocID, Remove := true } ::
      deps.map (fun name => { C := .dependentC name, Id := m.globalKey gk, Remove := true }))
    ++ removalBatch gk deps rest

/-- The stored machine documents that match the requested ids. -/
def matchedDocs (st : State) (ids : List String) : List machineDoc :=
  st.machines.filter (fun d => decide (d.Id ∈ ids))

/-- A sample machine: the snapshot of machine 2 of the sample store. -/
def sampleMachine : Machine := ⟨⟨"u:2", "2", .Dead⟩⟩

/-- A sample backup record, built as backups_test.go builds it: 42 bytes
written by machine 0, created a fraction after a whole second. -/
def sampleMetadata : Metadata Nat :=
  (NewMetadata 1400000000123456789 (NewOrigin "env" "0" "localhost" 1) "" none).Finish 42
    "some hash" ""

/-- A sample catalog: one record, stored under the identifier "spam". -/
def sampleCatalog : List (Metadata Nat) :=
  [{ sampleMetadata with id := "spam", notes := "older", timestamp := 1300000000000000000 }]

/-! # Properties -/

/-! ## Marking a machine for removal -/

theorem not_dead_message (pre : String) :
    pre ++ ": " ++ "machine is not dead" = pre ++ ": machine is not dead" := by
  rw [String.append_assoc]; rfl

theorem runTransaction_fault (st : State) (ops : List Op) (msg : String)
    (h : st.fault = some msg) : runTransaction st ops = (some (.Errorf msg), st) := by
  simp [runTransaction, h]

theorem runTransaction_nil (st : State) (h : st.fault = none) :
    runTransaction st [] = (none, st) := by
  simp [runTransaction, h]

theorem assertHolds_isDeadDoc (st : State) (docID : String) :
    assertHolds st { C := .machinesC, Id := docID, Assert := some .isDeadDoc } = true
      ↔ st.holdsDead docID := by
  unfold assertHolds State.holdsDead
  cases hf : st.machines.find? (fun d => d.DocID == docID) with
  | none => simp
  | some d => simp

theorem MarkForRemoval_commit (gk : String → String) (st : State) (m : Machine)
    (hm : m.doc.Life = Life.Dead) (hf : st.fault = none) (hd : st.holdsDead m.doc.DocID) :
    m.MarkForRemoval gk st = (none, markedState gk st m) := by
  have ha := (assertHolds_isDeadDoc st m.doc.DocID).mpr hd
  have hb : assertHolds st ⟨.machineRemovalsC, gk m.doc.Id, none, some ⟨"", m.doc.Id⟩, false⟩
      = true := by
    simp [assertHolds]
  unfold Machine.MarkForRemoval
  simp only [hm, ne_eq, not_true_eq_false, if_false, runTransaction, hf, Machine.globalKey,
    Machine.Id, List.all_cons, List.all_nil, ha, hb, Bool.and_self, if_true, List.foldl_cons,
    List.foldl_nil, onAbort, DeferredAnnotatef]
  unfold markedState
  by_cases hk : st.machineRemovals.any (fun r => r.DocID == gk m.doc.Id) = true
  · simp [applyOp, docExists, hk]
  · simp [applyOp, docExists, hk]

theorem MarkForRemoval_abort (gk : String → String) (st : State) (m : Machine)
    (hm : m.doc.Life = Life.Dead) (hf : st.fault = none) (hd : ¬ st.holdsDead m.doc.DocID) :
    m.MarkForRemoval gk st =
      (some (.Errorf ("cannot remove machine " ++ m.doc.Id ++ ": machine is not dead")), st) := by
  have ha : assertHolds st { C := .machinesC, Id := m.doc.DocID, Assert := some .isDeadDoc }
      = false := by
    rw [← Bool.not_eq_true]
    exact fun h => hd ((assertHolds_isDeadDoc st m.doc.DocID).mp h)
  unfold Machine.MarkForRemoval
  simp [hm, runTransaction, hf, ha, onAbort, DeferredAnnotatef, Annotatef, Trace, Error.Error,
    not_dead_message]

theorem MarkForRemoval_notDead (gk : String → String) (st : State) (m : Machine)
    (hm : m.doc.Life ≠ Life.Dead) :
    m.MarkForRemoval gk st =
      (some (.Errorf ("cannot remove machine " ++ m.doc.Id ++ ": machine is not dead")), st) := by
  unfold Machine.MarkForRemoval
  simp [hm, DeferredAnnotatef, Annotatef, Error.Error, not_dead_message]

theorem MarkForRemoval_fault (gk : String → String) (st : State) (m : Machine)
    (hm : m.doc.Life = Life.Dead) (msg : String) (hf : st.fault = some msg) :
    m.MarkForRemoval gk st =
      (some (.Errorf ("cannot remove machine " ++ m.doc.Id ++ ": " ++ msg)), st) := by
  unfold Machine.MarkForRemoval
  simp [hm, runTransaction, hf, onAbort, DeferredAnnotatef, Annotatef, Trace, Error.Error]

theorem filter_key_singleton {α β : Type} [DecidableEq β] (f : α → β) :
    ∀ (l : List α), (l.map f).Nodup → ∀ r ∈ l, l.filter (fun x => decide (f x = f r)) = [r] := by
  intro l
  induction l with
  | nil => intro _ r hr; cases hr
  | cons a t ih =>
    intro hnd r hr
    rw [List.map_cons, List.nodup_cons] at hnd
    rcases List.mem_cons.mp hr with rfl | hrt
    · have ht : t.filter (fun x => decide (f x = f r)) = [] := by
        rw [List.filter_eq_nil_iff]
        intro x hx hfx
        exact hnd.1 (by
          have : f x = f r := by simpa using hfx
          rw [← this]; exact List.mem_map_of_mem f hx)
      simp [List.filter_cons, ht]
    · have hne : f a ≠ f r := fun h => hnd.1 (by rw [h]; exact List.mem_map_of_mem f hrt)
      simp [List.filter_cons, hne, ih hnd.2 r hrt]

theorem markedState_fault (gk : String → String) (st : State) (m : Machine) :
    (markedState gk st m).fault = st.fault := by
  unfold markedState; split <;> rfl

theorem markedState_machines (gk : String → String) (st : State) (m : Machine) :
    (markedState gk st m).machines = st.machines := by
  unfold markedState; split <;> rfl

theorem markedState_holdsDead (gk : String → String) (st : State) (m : Machine) (docID : String) :
    (markedState gk st m).holdsDead docID ↔ st.holdsDead docID := by
  unfold State.holdsDead; rw [markedState_machines]

theorem markedState_idem (gk : String → String) (st : State) (m : Machine) :
    markedState gk (markedState gk st m) m = markedState gk st m := by
  by_cases hk : st.machineRemovals.any (fun r => r.DocID == gk m.doc.Id) = true
  · simp [markedState, hk]
  · have h1 : markedState gk st m =
        { st with machineRemovals := st.machineRemovals ++ [⟨gk m.doc.Id, m.doc.Id⟩] } := by
      simp [markedState, hk]
    rw [h1]
    simp [markedState]

theorem markedState_WF (gk : String → String) (st : State) (m : Machine) (hwf : st.WF gk) :
    (markedState gk st m).WF gk := by
  by_cases hk : st.machineRemovals.any (fun r => r.DocID == gk m.doc.Id) = true
  · simpa [markedState, hk] using hwf
  · have h1 : markedState gk st m =
        { st with machineRemovals := st.machineRemovals ++ [⟨gk m.doc.Id, m.doc.Id⟩] } := by
      simp [markedState, hk]
    rw [h1]
    have hk2 : ∀ r ∈ st.machineRemovals, r.DocID ≠ gk m.doc.Id := by
      simpa using hk
    refine ⟨hwf.machineKeys, ?_, ?_⟩
    · simp only [List.map_append, List.map_cons, List.map_nil]
      rw [List.nodup_append]
      refine ⟨hwf.removalKeys, List.nodup_singleton _, ?_⟩
      intro k hk3 hk4
      rw [List.mem_singleton] at hk4
      rcases List.mem_map.mp hk3 with ⟨r, hr, rfl⟩
      exact hk2 r hr hk4
    · intro r hr
      rcases List.mem_append.mp hr with h | h
      · exact hwf.removalKeyed r h
      · rw [List.mem_singleton] at h; rw [h]

theorem markedState_mem (gk : String → String) (hgk : Function.Injective gk) (st : State)
    (m : Machine) (hwf : st.WF gk) :
    (⟨gk m.doc.Id, m.doc.Id⟩ : machineRemovalDoc) ∈ (markedState gk st m).machineRemovals := by
  by_cases hk : st.machineRemovals.any (fun r => r.DocID == gk m.doc.Id) = true
  · have h1 : markedState gk st m = st := by simp [markedState, hk]
    rw [h1]
    rcases List.any_eq_true.mp hk with ⟨r, hr, hrk⟩
    have hrk2 : r.DocID = gk m.doc.Id := by simpa using hrk
    have hid : r.MachineID = m.doc.Id := hgk ((hwf.removalKeyed r hr).symm.trans hrk2)
    have : r = ⟨gk m.doc.Id, m.doc.Id⟩ := by
      cases r; simp_all
    rw [← this]; exact hr
  · have h1 : markedState gk st m =
        { st with machineRemovals := st.machineRemovals ++ [⟨gk m.doc.Id, m.doc.Id⟩] } := by
      simp [markedState, hk]
    rw [h1]; simp

theorem sampleKey_injective : Function.Injective sampleKey := by
  intro a b h
  apply String.ext
  have := congrArg String.data h
  simpa [sampleKey] using this

theorem sampleState_WF : sampleState.WF sampleKey :=
  ⟨by decide, by decide, by decide⟩

theorem MarkForRemoval_succeeds_core (gk : String → String) (st : State) (m : Machine) :
    (m.MarkForRemoval gk st).1 = none ↔
      (m.doc.Life = Life.Dead ∧ st.fault = none ∧ st.holdsDead m.doc.DocID) := by
  by_cases hm : m.doc.Life = Life.Dead
  · cases hf : st.fault with
    | some msg =>
      rw [MarkForRemoval_fault gk st m hm msg hf]
      simp
    | none =>
      by_cases hd : st.holdsDead m.doc.DocID
      · rw [MarkForRemoval_commit gk st m hm hf hd]
        simp [hm, hd]
      · rw [MarkForRemoval_abort gk st m hm hf hd]
        simp [hd]
  · rw [MarkForRemoval_notDead gk st m hm]
    simp [hm]

/-- C1, as stated, fails: a machine whose snapshot is Dead but whose document
is gone from the store is refused; so is a machine whose stored document is
Dead while the snapshot still says Alive, and so is any machine when the
store cannot be reached. -/
theorem MarkForRemoval_dead_not_sufficient :
    ((⟨⟨"u:7", "7", .Dead⟩⟩ : Machine).doc.Life = Life.Dead ∧
      (Machine.MarkForRemoval sampleKey sampleState ⟨⟨"u:7", "7", .Dead⟩⟩).1 =
        some (.Errorf "cannot remove machine 7: machine is not dead")) ∧
    (sampleState.holdsDead "u:2" ∧
      (Machine.MarkForRemoval sampleKey sampleState ⟨⟨"u:2", "2", .Alive⟩⟩).1 =
        some (.Errorf "cannot remove machine 2: machine is not dead")) ∧
    (sampleDown.holdsDead "u:2" ∧
      (Machine.MarkForRemoval sampleKey sampleDown ⟨⟨"u:2", "2", .Dead⟩⟩).1 =
        some (.Errorf "cannot remove machine 2: connection refused")) :=
  ⟨⟨rfl, by decide⟩, ⟨⟨_, rfl, rfl⟩, by decide⟩, ⟨⟨_, rfl, rfl⟩, by decide⟩⟩

/-- C1 (amended): `MarkForRemoval(m)` returns no error exactly when the
snapshot of m is Dead, the store can be reached and the store still holds the
document of m in the Dead state. A failing call leaves the store as it was.
When the snapshot is not Dead, and whenever a call fails on a store that can
be reached, the error is "cannot remove machine <id>: machine is not dead". -/
theorem MarkForRemoval_succeeds_iff (gk : String → String) (st : State) (m : Machine) :
    ((m.MarkForRemoval gk st).1 = none ↔
      (m.doc.Life = Life.Dead ∧ st.fault = none ∧ st.holdsDead m.doc.DocID)) ∧
    ((m.MarkForRemoval gk st).1 ≠ none → (m.MarkForRemoval gk st).2 = st) ∧
    (m.doc.Life ≠ Life.Dead → m.MarkForRemoval gk st =
      (some (.Errorf ("cannot remove machine " ++ m.doc.Id ++ ": machine is not dead")), st)) ∧
    (st.fault = none → (m.MarkForRemoval gk st).1 ≠ none → m.MarkForRemoval gk st =
      (some (.Errorf ("cannot remove machine " ++ m.doc.Id ++ ": machine is not dead")), st)) := by
  by_cases hm : m.doc.Life = Life.Dead
  · cases hf : st.fault with
    | some msg =>
      rw [MarkForRemoval_fault gk st m hm msg hf]
      simp [hm]
    | none =>
      by_cases hd : st.holdsDead m.doc.DocID
      · rw [MarkForRemoval_commit gk st m hm hf hd]
        simp [hm, hd]
      · rw [MarkForRemoval_abort gk st m hm hf hd]
        simp [hd]
  · rw [MarkForRemoval_notDead gk st m hm]
    simp [hm]

/-- C2: for a Dead machine whose stored document is and stays Dead (on a
well-formed, reachable store), two calls of `MarkForRemoval` in sequence both
succeed, the second leaves the store as the first left it, and afterwards the
machine-removals collection holds exactly one record under the global key of
the machine and exactly one record carrying its id: the record
(global key, id). -/
theorem MarkForRemoval_twice (gk : String → String) (hgk : Function.Injective gk)
    (st : State) (m : Machine) (hwf : st.WF gk) (hf : st.fault = none)
    (hm : m.doc.Life = Life.Dead) (hd : st.holdsDead m.doc.DocID) :
    (m.MarkForRemoval gk st).1 = none ∧
    (m.MarkForRemoval gk (m.MarkForRemoval gk st).2).1 = none ∧
    (m.MarkForRemoval gk (m.MarkForRemoval gk st).2).2 = (m.MarkForRemoval gk st).2 ∧
    (m.MarkForRemoval gk (m.MarkForRemoval gk st).2).2.machines = st.machines ∧
    (m.MarkForRemoval gk (m.MarkForRemoval gk st).2).2.machineRemovals.filter
        (fun r => decide (r.DocID = m.globalKey gk)) = [⟨m.globalKey gk, m.Id⟩] ∧
    (m.MarkForRemoval gk (m.MarkForRemoval gk st).2).2.machineRemovals.filter
        (fun r => decide (r.MachineID = m.Id)) = [⟨m.globalKey gk, m.Id⟩] := by
  have h1 := MarkForRemoval_commit gk st m hm hf hd
  have h2 := MarkForRemoval_commit gk (markedState gk st m) m hm
    ((markedState_fault gk st m).trans hf) ((markedState_holdsDead gk st m _).mpr hd)
  rw [markedState_idem] at h2
  have hwf2 := markedState_WF gk st m hwf
  have hmem := markedState_mem gk hgk st m hwf
  have hkey := filter_key_singleton (fun r : machineRemovalDoc => r.DocID) _ hwf2.removalKeys _ hmem
  simp only [h1, h2, Machine.globalKey, Machine.Id, markedState_machines, true_and]
  refine ⟨hkey, ?_⟩
  rw [← hkey]
  apply List.filter_congr
  intro r hr
  have hk := hwf2.removalKeyed r hr
  simp only [decide_eq_decide]
  constructor
  · intro h; rw [hk, h]
  · intro h; exact hgk (hk.symm.trans h)

/-- C2 at the sample store: machine 2 is Dead and not yet marked. -/
theorem MarkForRemoval_twice_witness :
    (Machine.MarkForRemoval sampleKey sampleState ⟨⟨"u:2", "2", .Dead⟩⟩).1 = none ∧
    (Machine.MarkForRemoval sampleKey
      (Machine.MarkForRemoval sampleKey sampleState ⟨⟨"u:2", "2", .Dead⟩⟩).2
      ⟨⟨"u:2", "2", .Dead⟩⟩).2.machineRemovals = [⟨"m#0", "0"⟩, ⟨"m#2", "2"⟩] :=
  have h := MarkForRemoval_twice sampleKey sampleKey_injective sampleState
    ⟨⟨"u:2", "2", .Dead⟩⟩ sampleState_WF rfl rfl ⟨_, rfl, rfl⟩
  ⟨h.1, by decide⟩

/-! ## Completing removals: reads, sets and the loop -/

theorem AllMachineRemovals_ok (st : State) (hf : st.fault = none) :
    AllMachineRemovals st = (.ok (st.machineRemovals.map (fun d => d.MachineID)), st) := by
  simp [AllMachineRemovals, hf]

theorem AllMachineRemovals_fault (st : State) (msg : String) (hf : st.fault = some msg) :
    AllMachineRemovals st = (.error (.Errorf msg), st) := by
  simp [AllMachineRemovals, hf, Trace]

theorem allMachinesMatching_ok (st : State) (ids : List String) (hf : st.fault = none) :
    allMachinesMatching st ids =
      (.ok ((st.machines.filter (fun d => decide (d.Id ∈ ids))).map newMachine), st) := by
  simp [allMachinesMatching, hf]

theorem mem_foldl_Add (xs : List String) :
    ∀ (s : Strings) (v : String),
      v ∈ (xs.foldl Strings.Add s).values ↔ v ∈ s.values ∨ v ∈ xs := by
  induction xs with
  | nil => intro s v; simp
  | cons x t ih =>
    intro s v
    rw [List.foldl_cons, ih]
    unfold Strings.Add
    by_cases hx : x ∈ s.values
    · simp only [hx, if_true, List.mem_cons]
      constructor
      · rintro (h | h)
        · exact Or.inl h
        · exact Or.inr (Or.inr h)
      · rintro (h | h | h)
        · exact Or.inl h
        · exact Or.inl (h ▸ hx)
        · exact Or.inr h
    · simp only [hx, if_false, List.mem_append, List.mem_singleton, List.mem_cons]
      tauto

theorem NewStrings_Contains (xs : List String) (v : String) :
    (NewStrings xs).Contains v = decide (v ∈ xs) := by
  unfold Strings.Contains NewStrings
  simp [mem_foldl_Add]

theorem collectRemovalOps_missing (gk : String → String)
    (removeOps : Machine → Except Error (List Op)) (removalSet : Strings) :
    ∀ (machines : List Machine) (ops : List Op) (missing : List String)
      (ops2 : List Op) (missing2 : List String),
      collectRemovalOps gk removeOps removalSet machines ops missing = .ok (ops2, missing2) →
      missing2 = missing ++ unmarkedOf removalSet machines := by
  intro machines
  induction machines with
  | nil =>
    intro ops missing ops2 missing2 h
    simp only [collectRemovalOps, Except.ok.injEq, Prod.mk.injEq] at h
    simp [unmarkedOf, h.2]
  | cons m t ih =>
    intro ops missing ops2 missing2 h
    unfold collectRemovalOps at h
    by_cases hc : removalSet.Contains m.Id = true
    · simp only [hc, Bool.not_true, Bool.false_eq_true, if_false] at h
      cases hr : removeOps m with
      | error e => rw [hr] at h; cases h
      | ok o =>
        rw [hr] at h
        rw [ih _ _ _ _ h]
        simp [unmarkedOf, List.filter_cons, hc]
    · simp only [hc, Bool.not_false, if_true] at h
      simp only [Bool.not_eq_true] at hc
      rw [ih _ _ _ _ h]
      simp [unmarkedOf, List.filter_cons, hc]

theorem collectRemovalOps_ok (gk : String → String)
    (removeOps : Machine → Except Error (List Op)) (removalSet : Strings) :
    ∀ (machines : List Machine) (ops : List Op) (missing : List String),
      (∀ m ∈ machines, removalSet.Contains m.Id = true → ∃ o, removeOps m = .ok o) →
      ∃ ops2, collectRemovalOps gk removeOps removalSet machines ops missing =
        .ok (ops2, missing ++ unmarkedOf removalSet machines) := by
  intro machines
  induction machines with
  | nil => intro ops missing _; exact ⟨ops, by simp [collectRemovalOps, unmarkedOf]⟩
  | cons m t ih =>
    intro ops missing hops
    have ht : ∀ x ∈ t, removalSet.Contains x.Id = true → ∃ o, removeOps x = .ok o :=
      fun x hx => hops x (List.mem_cons_of_mem _ hx)
    unfold collectRemovalOps
    by_cases hc : removalSet.Contains m.Id = true
    · rcases hops m (List.mem_cons_self _ _) hc with ⟨o, ho⟩
      rcases ih (ops ++ [{ C := .machineRemovalsC, Id := m.globalKey gk, Remove := true }] ++ o)
        missing ht with ⟨ops2, h2⟩
      refine ⟨ops2, ?_⟩
      simp only [hc, Bool.not_true, Bool.false_eq_true, if_false, ho, h2]
      simp [unmarkedOf, List.filter_cons, hc]
    · simp only [Bool.not_eq_true] at hc
      rcases ih ops (missing ++ [m.Id]) ht with ⟨ops2, h2⟩
      refine ⟨ops2, ?_⟩
      simp only [hc, Bool.not_false, if_true, h2]
      simp [unmarkedOf, List.filter_cons, hc]

theorem unmarkedOf_matched (st : State) (ids : List String) :
    unmarkedOf (NewStrings (st.machineRemovals.map (fun r => r.MachineID)))
      ((st.machines.filter (fun d => decide (d.Id ∈ ids))).map newMachine) = unmarkedIds st ids := by
  unfold unmarkedOf unmarkedIds
  rw [List.filter_map, List.map_map, List.filter_filter]
  congr 1
  apply List.filter_congr
  intro d _
  simp [NewStrings_Contains, Machine.Id, newMachine, Bool.and_comm]

theorem unmarkedIds_ne_nil (st : State) (ids : List String) (id : String) (hid : id ∈ ids)
    (hdoc : ∃ d ∈ st.machines, d.Id = id)
    (hrec : ¬ ∃ r ∈ st.machineRemovals, r.MachineID = id) :
    0 < (unmarkedIds st ids).length := by
  rcases hdoc with ⟨d, hd, rfl⟩
  apply List.length_pos_of_mem (a := d.Id)
  unfold unmarkedIds
  apply List.mem_map_of_mem
  rw [List.mem_filter]
  refine ⟨hd, ?_⟩
  simp only [Bool.and_eq_true, decide_eq_true_eq, Bool.not_eq_true', decide_eq_false_iff_not,
    List.mem_map, not_exists, not_and]
  exact ⟨hid, fun r hr h => hrec ⟨r, hr, h⟩⟩

/-- C3: whenever a requested id has a machine document but no removal
record, `CompleteMachineRemovals` returns an error, submits no transaction
and leaves the store exactly as it was, whatever else was requested. -/
theorem CompleteMachineRemovals_unmarked_fails (gk : String → String)
    (removeOps : Machine → Except Error (List Op)) (st : State) (ids : List String)
    (h : ∃ id ∈ ids, (∃ d ∈ st.machines, d.Id = id) ∧
      ¬ ∃ r ∈ st.machineRemovals, r.MachineID = id) :
    (CompleteMachineRemovals gk removeOps st ids).err ≠ none ∧
    (CompleteMachineRemovals gk removeOps st ids).submitted = [] ∧
    (CompleteMachineRemovals gk removeOps st ids).st = st := by
  rcases h with ⟨id, hid, hdoc, hrec⟩
  have hpos := unmarkedIds_ne_nil st ids id hid hdoc hrec
  cases hf : st.fault with
  | some msg => simp [CompleteMachineRemovals, AllMachineRemovals_fault st msg hf]
  | none =>
    unfold CompleteMachineRemovals
    simp only [AllMachineRemovals_ok st hf, allMachinesMatching_ok st ids hf]
    cases hloop : collectRemovalOps gk removeOps
        (NewStrings (st.machineRemovals.map (fun d => d.MachineID)))
        ((st.machines.filter (fun d => decide (d.Id ∈ ids))).map newMachine) [] [] with
    | error e => simp
    | ok res =>
      obtain ⟨ops, missing⟩ := res
      have hmiss := collectRemovalOps_missing gk removeOps _ _ _ _ _ _ hloop
      rw [unmarkedOf_matched, List.nil_append] at hmiss
      rw [← hmiss] at hpos
      simp [hpos]

/-- C3 at the sample store: machine 0 is marked, machine 2 exists unmarked;
requesting both removes neither. -/
theorem CompleteMachineRemovals_unmarked_fails_witness :
    (CompleteMachineRemovals sampleKey (Machine.removeOps sampleKey ["statuses"]) sampleState
      ["0", "2"]).err ≠ none ∧
    (CompleteMachineRemovals sampleKey (Machine.removeOps sampleKey ["statuses"]) sampleState
      ["0", "2"]).submitted = [] ∧
    (CompleteMachineRemovals sampleKey (Machine.removeOps sampleKey ["statuses"]) sampleState
      ["0", "2"]).st = sampleState :=
  CompleteMachineRemovals_unmarked_fails sampleKey (Machine.removeOps sampleKey ["statuses"])
    sampleState ["0", "2"] ⟨"2", by decide, by decide, by decide⟩

/-- C4: on a store that can be reached, when no requested id has a machine
document, `CompleteMachineRemovals` returns no error, the batch it submits is
empty and the store (machines and machine-removals included) is left as it
was, whether or not removal records for those ids exist. -/
theorem CompleteMachineRemovals_unknown_ids (gk : String → String)
    (removeOps : Machine → Except Error (List Op)) (st : State) (ids : List String)
    (hf : st.fault = none) (h : ∀ id ∈ ids, ¬ ∃ d ∈ st.machines, d.Id = id) :
    (CompleteMachineRemovals gk removeOps st ids).err = none ∧
    (CompleteMachineRemovals gk removeOps st ids).submitted = [[]] ∧
    (CompleteMachineRemovals gk removeOps st ids).st = st := by
  have hnil : st.machines.filter (fun d => decide (d.Id ∈ ids)) = [] := by
    rw [List.filter_eq_nil_iff]
    intro d hd hmem
    exact h d.Id (by simpa using hmem) ⟨d, hd, rfl⟩
  unfold CompleteMachineRemovals
  simp only [AllMachineRemovals_ok st hf, allMachinesMatching_ok st ids hf, hnil, List.map_nil,
    collectRemovalOps, List.length_nil, gt_iff_lt, lt_self_iff_false, if_false,
    runTransaction_nil st hf, and_self]

/-- C4 at the sample store: machine 9 is unknown; a removal record for it
changes nothing. -/
theorem CompleteMachineRemovals_unknown_ids_witness :
    (CompleteMachineRemovals sampleKey (Machine.removeOps sampleKey [])
      { sampleState with machineRemovals := [⟨"m#0", "0"⟩, ⟨"m#9", "9"⟩] } ["9", "5"]).err = none ∧
    (CompleteMachineRemovals sampleKey (Machine.removeOps sampleKey [])
      { sampleState with machineRemovals := [⟨"m#0", "0"⟩, ⟨"m#9", "9"⟩] } ["9", "5"]).submitted
        = [[]] ∧
    (CompleteMachineRemovals sampleKey (Machine.removeOps sampleKey [])
      { sampleState with machineRemovals := [⟨"m#0", "0"⟩, ⟨"m#9", "9"⟩] } ["9", "5"]).st =
        { sampleState with machineRemovals := [⟨"m#0", "0"⟩, ⟨"m#9", "9"⟩] } :=
  CompleteMachineRemovals_unknown_ids sampleKey (Machine.removeOps sampleKey [])
    { sampleState with machineRemovals := [⟨"m#0", "0"⟩, ⟨"m#9", "9"⟩] } ["9", "5"] rfl
    (by decide)

/-! ## The error that names the unmarked machines -/

theorem strLe_iff (a b : String) : strLe a b ↔ a ≤ b :=
  String.le_iff_toList_le.symm

theorem strLe_total (a b : String) : strLe a b ∨ strLe b a := by
  simpa only [strLe_iff] using le_total a b

theorem strLe_trans (a b c : String) (hab : strLe a b) (hbc : strLe b c) : strLe a c := by
  rw [strLe_iff] at *
  exact le_trans hab hbc

theorem strLe_antisymm (a b : String) (hab : strLe a b) (hba : strLe b a) : a = b := by
  rw [strLe_iff] at *
  exact le_antisymm hab hba

theorem sortStrings_sorted (xs : List String) : (sortStrings xs).Sorted strLe :=
  haveI : IsTotal String strLe := ⟨strLe_total⟩
  haveI : IsTrans String strLe := ⟨strLe_trans⟩
  List.sorted_insertionSort strLe xs

theorem sortStrings_perm (xs : List String) : (sortStrings xs).Perm xs :=
  List.perm_insertionSort strLe xs

theorem sortStrings_congr (xs ys : List String) (h : xs.Perm ys) :
    sortStrings xs = sortStrings ys :=
  haveI : IsAntisymm String strLe := ⟨strLe_antisymm⟩
  List.eq_of_perm_of_sorted
    (((sortStrings_perm xs).trans h).trans (sortStrings_perm ys).symm)
    (sortStrings_sorted xs) (sortStrings_sorted ys)

theorem unmarkedIds_perm (st st2 : State) (ids ids2 : List String)
    (hm : st2.machines.Perm st.machines) (hr : st2.machineRemovals.Perm st.machineRemovals)
    (hi : ids2.Perm ids) : (unmarkedIds st2 ids2).Perm (unmarkedIds st ids) := by
  unfold unmarkedIds
  apply List.Perm.map
  have hp : ∀ d : machineDoc,
      (decide (d.Id ∈ ids2) &&
        !decide (d.Id ∈ st2.machineRemovals.map (fun r => r.MachineID))) =
      (decide (d.Id ∈ ids) &&
        !decide (d.Id ∈ st.machineRemovals.map (fun r => r.MachineID))) := by
    intro d
    have h1 : d.Id ∈ ids2 ↔ d.Id ∈ ids := hi.mem_iff
    have h2 : d.Id ∈ st2.machineRemovals.map (fun r => r.MachineID) ↔
        d.Id ∈ st.machineRemovals.map (fun r => r.MachineID) := (hr.map _).mem_iff
    simp only [h1, h2]
  rw [funext hp]
  exact hm.filter _

theorem CompleteMachineRemovals_notMarked (gk : String → String)
    (removeOps : Machine → Except Error (List Op)) (st : State) (ids : List String)
    (hf : st.fault = none)
    (hops : ∀ d ∈ st.machines, d.Id ∈ ids →
      d.Id ∈ st.machineRemovals.map (fun r => r.MachineID) → ∃ o, removeOps ⟨d⟩ = .ok o)
    (hne : unmarkedIds st ids ≠ []) :
    (CompleteMachineRemovals gk removeOps st ids).err =
      some (.Errorf (notMarkedMessage (sortStrings (unmarkedIds st ids)))) := by
  have hok := collectRemovalOps_ok gk removeOps
    (NewStrings (st.machineRemovals.map (fun d => d.MachineID)))
    ((st.machines.filter (fun d => decide (d.Id ∈ ids))).map newMachine) [] [] (by
      intro m hm hc
      rcases List.mem_map.mp hm with ⟨d, hd, rfl⟩
      rw [List.mem_filter] at hd
      rw [NewStrings_Contains] at hc
      exact hops d hd.1 (by simpa using hd.2) (by simpa [Machine.Id, newMachine] using hc))
  rcases hok with ⟨ops2, h2⟩
  rw [unmarkedOf_matched, List.nil_append] at h2
  have hpos : 0 < (unmarkedIds st ids).length := List.length_pos.mpr hne
  unfold CompleteMachineRemovals
  simp only [AllMachineRemovals_ok st hf, allMachinesMatching_ok st ids hf, h2, gt_iff_lt, hpos,
    if_true, notMarkedMessage]

/-- C9: when the reads succeed, the removal-operation builder does not fail
and some matched machine has no removal record, the error of
`CompleteMachineRemovals` is "cannot remove machine", then "s" unless one id
is listed, a blank, the ids joined by ", ", and ": not marked for removal".
The ids listed are those of the matched machines whose id no removal record
carries, in ascending order; the message is the same for every order of the
requested ids and of the stored documents. -/
theorem CompleteMachineRemovals_notMarked_message (gk : String → String)
    (removeOps : Machine → Except Error (List Op)) (st : State) (ids : List String)
    (hf : st.fault = none)
    (hops : ∀ d ∈ st.machines, d.Id ∈ ids →
      d.Id ∈ st.machineRemovals.map (fun r => r.MachineID) → ∃ o, removeOps ⟨d⟩ = .ok o)
    (hne : ∃ d ∈ st.machines, d.Id ∈ ids ∧
      d.Id ∉ st.machineRemovals.map (fun r => r.MachineID)) :
    ∃ names : List String,
      names.Perm (unmarkedIds st ids) ∧
      names.Sorted (fun a b => a ≤ b) ∧
      (CompleteMachineRemovals gk removeOps st ids).err =
        some (.Errorf ("cannot remove machine" ++ (if names.length = 1 then "" else "s") ++ " "
          ++ ", ".intercalate names ++ ": not marked for removal")) ∧
      ∀ (st2 : State) (ids2 : List String), st2.fault = none →
        st2.machines.Perm st.machines → st2.machineRemovals.Perm st.machineRemovals →
        ids2.Perm ids →
        (CompleteMachineRemovals gk removeOps st2 ids2).err =
          (CompleteMachineRemovals gk removeOps st ids).err := by
  have hnil : unmarkedIds st ids ≠ [] := by
    rcases hne with ⟨d, hd, hi, hr⟩
    apply List.ne_nil_of_mem (a := d.Id)
    unfold unmarkedIds
    apply List.mem_map_of_mem
    rw [List.mem_filter]
    exact ⟨hd, by simp [hi, hr]⟩
  have herr := CompleteMachineRemovals_notMarked gk removeOps st ids hf hops hnil
  refine ⟨sortStrings (unmarkedIds st ids), sortStrings_perm _, ?_, ?_, ?_⟩
  · exact (sortStrings_sorted _).imp (fun {a b} h => (strLe_iff a b).mp h)
  · rw [herr]; rfl
  · intro st2 ids2 hf2 hm hr hi
    have hp := unmarkedIds_perm st st2 ids ids2 hm hr hi
    have hnil2 : unmarkedIds st2 ids2 ≠ [] := fun h => hnil (by
      rw [h] at hp; exact List.Perm.eq_nil hp.symm)
    have hops2 : ∀ d ∈ st2.machines, d.Id ∈ ids2 →
        d.Id ∈ st2.machineRemovals.map (fun r => r.MachineID) → ∃ o, removeOps ⟨d⟩ = .ok o :=
      fun d hd hi2 hr2 => hops d (hm.mem_iff.mp hd) (hi.mem_iff.mp hi2) ((hr.map _).mem_iff.mp hr2)
    rw [herr, CompleteMachineRemovals_notMarked gk removeOps st2 ids2 hf2 hops2 hnil2,
      sortStrings_congr _ _ hp]

/-- C9 at the sample store: machines 1 and 2 exist unmarked; they are named
in ascending order, also when the documents and the ids come in another
order. -/
theorem CompleteMachineRemovals_notMarked_message_witness :
    (CompleteMachineRemovals sampleKey (Machine.removeOps sampleKey []) sampleState
      ["2", "9", "1", "0"]).err =
        some (.Errorf "cannot remove machines 1, 2: not marked for removal") ∧
    (CompleteMachineRemovals sampleKey (Machine.removeOps sampleKey [])
      { sampleState with machines := sampleState.machines.reverse } ["0", "1", "2", "9"]).err =
        (CompleteMachineRemovals sampleKey (Machine.removeOps sampleKey []) sampleState
          ["2", "9", "1", "0"]).err := by
  obtain ⟨_, _, _, _, h⟩ := CompleteMachineRemovals_notMarked_message sampleKey
    (Machine.removeOps sampleKey []) sampleState ["2", "9", "1", "0"] rfl
    (fun d _ _ _ => ⟨_, rfl⟩) ⟨⟨"u:2", "2", .Dead⟩, by decide, by decide, by decide⟩
  exact ⟨by decide, h { sampleState with machines := sampleState.machines.reverse }
    ["0", "1", "2", "9"] rfl (List.reverse_perm _) (List.Perm.refl _) (by decide)⟩

/-! ## Completing removals: the batch and what it deletes -/

theorem collectRemovalOps_removeOps (gk : String → String) (deps : List String)
    (removalSet : Strings) :
    ∀ (machines : List Machine) (ops : List Op) (missing : List String),
      collectRemovalOps gk (Machine.removeOps gk deps) removalSet machines ops missing =
        .ok (ops ++ removalBatch gk deps (machines.filter (fun m => removalSet.Contains m.Id)),
          missing ++ unmarkedOf removalSet machines) := by
  intro machines
  induction machines with
  | nil => intro ops missing; simp [collectRemovalOps, removalBatch, unmarkedOf]
  | cons m t ih =>
    intro ops missing
    unfold collectRemovalOps
    by_cases hc : removalSet.Contains m.Id = true
    · simp only [hc, Bool.not_true, Bool.false_eq_true, if_false, Machine.removeOps, ih]
      simp [unmarkedOf, List.filter_cons, hc, removalBatch]
    · simp only [Bool.not_eq_true] at hc
      simp only [hc, Bool.not_false, if_true, ih]
      simp [unmarkedOf, List.filter_cons, hc]

theorem removalBatch_plain (gk : String → String) (deps : List String) :
    ∀ (ms : List Machine), ∀ op ∈ removalBatch gk deps ms,
      op.Remove = true ∧ op.Assert = none := by
  intro ms
  induction ms with
  | nil => intro op h; simp [removalBatch] at h
  | cons m t ih =>
    intro op h
    simp only [removalBatch, List.cons_append, List.mem_cons, List.mem_append, List.mem_map] at h
    rcases h with rfl | rfl | ⟨name, _, rfl⟩ | h
    · exact ⟨rfl, rfl⟩
    · exact ⟨rfl, rfl⟩
    · exact ⟨rfl, rfl⟩
    · exact ih op h

theorem removalBatch_machines (gk : String → String) (deps : List String) (x : String) :
    ∀ (ms : List Machine),
      (removalBatch gk deps ms).any (fun op => op.C == .machinesC && op.Id == x) =
        ms.any (fun m => m.doc.DocID == x) := by
  intro ms
  induction ms with
  | nil => simp [removalBatch]
  | cons m t ih =>
    simp only [removalBatch, List.cons_append, List.any_cons, List.any_append, ih]
    have hd : ((deps.map (fun name =>
        ({ C := .dependentC name, Id := m.globalKey gk, Remove := true } : Op))).any
        (fun op : Op => op.C == Collection.machinesC && op.Id == x)) = false := by
      rw [List.any_eq_false]
      intro op hop
      rcases List.mem_map.mp hop with ⟨name, _, rfl⟩
      simp
    rw [hd]
    simp

theorem removalBatch_removals (gk : String → String) (deps : List String) (x : String) :
    ∀ (ms : List Machine),
      (removalBatch gk deps ms).any (fun op => op.C == .machineRemovalsC && op.Id == x) =
        ms.any (fun m => gk m.doc.Id == x) := by
  intro ms
  induction ms with
  | nil => simp [removalBatch]
  | cons m t ih =>
    simp only [removalBatch, List.cons_append, List.any_cons, List.any_append, ih]
    have hd : ((deps.map (fun name =>
        ({ C := .dependentC name, Id := m.globalKey gk, Remove := true } : Op))).any
        (fun op : Op => op.C == Collection.machineRemovalsC && op.Id == x)) = false := by
      rw [List.any_eq_false]
      intro op hop
      rcases List.mem_map.mp hop with ⟨name, _, rfl⟩
      simp
    have hc : (Collection.machinesC == Collection.machineRemovalsC) = false := by decide
    rw [hd]
    simp [Machine.globalKey, hc]

theorem applyOp_remove (st : State) (op : Op) (h : op.Remove = true) :
    (applyOp st op).fault = st.fault ∧
    (applyOp st op).machines =
      st.machines.filter (fun d => !(op.C == .machinesC && op.Id == d.DocID)) ∧
    (applyOp st op).machineRemovals =
      st.machineRemovals.filter (fun r => !(op.C == .machineRemovalsC && op.Id == r.DocID)) := by
  have e1 : (Collection.machinesC == Collection.machineRemovalsC) = false := by decide
  have e2 : (Collection.machineRemovalsC == Collection.machinesC) = false := by decide
  unfold applyOp
  rw [if_pos h]
  cases hc : op.C with
  | machinesC =>
    refine ⟨rfl, ?_, ?_⟩
    · apply List.filter_congr
      intro d _
      by_cases hd : d.DocID = op.Id
      · simp [hd]
      · have b1 : (d.DocID == op.Id) = false := by
          rw [beq_eq_false_iff_ne]; exact hd
        have b2 : (op.Id == d.DocID) = false := by
          rw [beq_eq_false_iff_ne]; exact fun h => hd h.symm
        simp [bne, b1, b2]
    · simp [e1]
  | machineRemovalsC =>
    refine ⟨rfl, ?_, ?_⟩
    · simp [e2]
    · apply List.filter_congr
      intro d _
      by_cases hd : d.DocID = op.Id
      · simp [hd]
      · have b1 : (d.DocID == op.Id) = false := by
          rw [beq_eq_false_iff_ne]; exact hd
        have b2 : (op.Id == d.DocID) = false := by
          rw [beq_eq_false_iff_ne]; exact fun h => hd h.symm
        simp [bne, b1, b2]
  | dependentC name =>
    have e3 : (Collection.dependentC name == Collection.machinesC) = false := by
      rw [beq_eq_false_iff_ne]; exact fun h => by cases h
    have e4 : (Collection.dependentC name == Collection.machineRemovalsC) = false := by
      rw [beq_eq_false_iff_ne]; exact fun h => by cases h
    refine ⟨rfl, ?_, ?_⟩ <;> simp [e3, e4]

theorem foldl_applyOp_removes :
    ∀ (ops : List Op) (st : State), (∀ op ∈ ops, op.Remove = true) →
      (ops.foldl applyOp st).fault = st.fault ∧
      (ops.foldl applyOp st).machines =
        st.machines.filter (fun d => !ops.any (fun op => op.C == .machinesC && op.Id == d.DocID)) ∧
      (ops.foldl applyOp st).machineRemovals =
        st.machineRemovals.filter
          (fun r => !ops.any (fun op => op.C == .machineRemovalsC && op.Id == r.DocID)) := by
  intro ops
  induction ops with
  | nil => intro st _; simp
  | cons op t ih =>
    intro st h
    have h1 := applyOp_remove st op (h op (List.mem_cons_self _ _))
    have h2 := ih (applyOp st op) (fun o ho => h o (List.mem_cons_of_mem _ ho))
    rw [List.foldl_cons]
    refine ⟨h2.1.trans h1.1, ?_, ?_⟩
    · rw [h2.2.1, h1.2.1, List.filter_filter]
      apply List.filter_congr
      intro d _
      simp [List.any_cons, Bool.and_comm]
    · rw [h2.2.2, h1.2.2, List.filter_filter]
      apply List.filter_congr
      intro d _
      simp [List.any_cons, Bool.and_comm]

theorem any_map_newMachine (l : List machineDoc) (p : Machine → Bool) :
    (l.map newMachine).any p = l.any (fun d => p (newMachine d)) := by
  induction l with
  | nil => rfl
  | cons a t ih => simp only [List.map_cons, List.any_cons, ih]

theorem CompleteMachineRemovals_commit (gk : String → String) (deps : List String) (st : State)
    (ids : List String) (hf : st.fault = none) (hall : unmarkedIds st ids = []) :
    (CompleteMachineRemovals gk (Machine.removeOps gk deps) st ids).err = none ∧
    (CompleteMachineRemovals gk (Machine.removeOps gk deps) st ids).st.fault = none ∧
    (CompleteMachineRemovals gk (Machine.removeOps gk deps) st ids).st.machines =
      st.machines.filter (fun d => !(matchedDocs st ids).any (fun m => m.DocID == d.DocID)) ∧
    (CompleteMachineRemovals gk (Machine.removeOps gk deps) st ids).st.machineRemovals =
      st.machineRemovals.filter (fun r => !(matchedDocs st ids).any (fun m => gk m.Id == r.DocID))
    := by
  have hloop := collectRemovalOps_removeOps gk deps
    (NewStrings (st.machineRemovals.map (fun d => d.MachineID)))
    ((st.machines.filter (fun d => decide (d.Id ∈ ids))).map newMachine) [] []
  rw [unmarkedOf_matched, hall] at hloop
  have hmarked : ((st.machines.filter (fun d => decide (d.Id ∈ ids))).map newMachine).filter
      (fun m => (NewStrings (st.machineRemovals.map (fun d => d.MachineID))).Contains m.Id)
      = (matchedDocs st ids).map newMachine := by
    unfold matchedDocs
    rw [List.filter_eq_self]
    intro m hm
    by_contra hc
    have : m.Id ∈ unmarkedOf (NewStrings (st.machineRemovals.map (fun d => d.MachineID)))
        ((st.machines.filter (fun d => decide (d.Id ∈ ids))).map newMachine) := by
      unfold unmarkedOf
      apply List.mem_map_of_mem
      rw [List.mem_filter]
      exact ⟨hm, by simpa using hc⟩
    rw [unmarkedOf_matched, hall] at this
    cases this
  rw [hmarked] at hloop
  have hplain := removalBatch_plain gk deps ((matchedDocs st ids).map newMachine)
  have hassert : (removalBatch gk deps ((matchedDocs st ids).map newMachine)).all (assertHolds st)
      = true := by
    rw [List.all_eq_true]
    intro op hop
    simp [assertHolds, (hplain op hop).2]
  have hfold := foldl_applyOp_removes (removalBatch gk deps ((matchedDocs st ids).map newMachine))
    st (fun op hop => (hplain op hop).1)
  unfold CompleteMachineRemovals
  simp only [AllMachineRemovals_ok st hf, allMachinesMatching_ok st ids hf, hloop,
    List.nil_append, List.length_nil, gt_iff_lt, lt_self_iff_false, if_false, runTransaction, hf,
    hassert, if_true, true_and]
  refine ⟨hfold.1.trans hf, ?_, ?_⟩
  · rw [hfold.2.1]
    apply List.filter_congr
    intro d _
    rw [removalBatch_machines]
    rw [any_map_newMachine]
    rfl
  · rw [hfold.2.2]
    apply List.filter_congr
    intro d _
    rw [removalBatch_removals]
    rw [any_map_newMachine]
    rfl

theorem CompleteMachineRemovals_success_marked (gk : String → String) (deps : List String)
    (st : State) (ids : List String)
    (h : (CompleteMachineRemovals gk (Machine.removeOps gk deps) st ids).err = none) :
    st.fault = none ∧ unmarkedIds st ids = [] := by
  cases hf : st.fault with
  | some msg =>
    simp [CompleteMachineRemovals, AllMachineRemovals_fault st msg hf] at h
  | none =>
    refine ⟨rfl, ?_⟩
    by_contra hne
    rw [CompleteMachineRemovals_notMarked gk _ st ids hf (fun d _ _ _ => ⟨_, rfl⟩) hne] at h
    cases h

theorem CompleteMachineRemovals_deletes (gk : String → String) (hgk : Function.Injective gk)
    (deps : List String) (st : State) (hwf : st.WF gk) (ids : List String)
    (h : (CompleteMachineRemovals gk (Machine.removeOps gk deps) st ids).err = none) :
    (∀ id ∈ ids, (∃ d ∈ st.machines, d.Id = id) →
      (∀ d ∈ (CompleteMachineRemovals gk (Machine.removeOps gk deps) st ids).st.machines,
        d.Id ≠ id) ∧
      (∀ r ∈ (CompleteMachineRemovals gk (Machine.removeOps gk deps) st ids).st.machineRemovals,
        r.MachineID ≠ id)) ∧
    (∀ d ∈ st.machines, d.Id ∉ ids →
      d ∈ (CompleteMachineRemovals gk (Machine.removeOps gk deps) st ids).st.machines) ∧
    (∀ r ∈ st.machineRemovals, r.MachineID ∉ ids →
      r ∈ (CompleteMachineRemovals gk (Machine.removeOps gk deps) st ids).st.machineRemovals) ∧
    (∀ d ∈ (CompleteMachineRemovals gk (Machine.removeOps gk deps) st ids).st.machines,
      d ∈ st.machines) ∧
    (∀ r ∈ (CompleteMachineRemovals gk (Machine.removeOps gk deps) st ids).st.machineRemovals,
      r ∈ st.machineRemovals) := by
  obtain ⟨hf, hall⟩ := CompleteMachineRemovals_success_marked gk deps st ids h
  obtain ⟨_, _, hmach, hrem⟩ := CompleteMachineRemovals_commit gk deps st ids hf hall
  rw [hmach, hrem]
  have hmatched : ∀ d, d ∈ matchedDocs st ids ↔ d ∈ st.machines ∧ d.Id ∈ ids := by
    intro d; simp [matchedDocs, List.mem_filter]
  refine ⟨?_, ?_, ?_, ?_, ?_⟩
  · rintro id hid ⟨d0, hd0, rfl⟩
    constructor
    · intro d hd hdi
      rw [List.mem_filter] at hd
      have hany : (matchedDocs st ids).any (fun m => m.DocID == d.DocID) = true :=
        List.any_eq_true.mpr ⟨d, (hmatched d).mpr ⟨hd.1, hdi ▸ hid⟩, by simp⟩
      simp [hany] at hd
    · intro r hr hri
      rw [List.mem_filter] at hr
      have hany : (matchedDocs st ids).any (fun m => gk m.Id == r.DocID) = true :=
        List.any_eq_true.mpr ⟨d0, (hmatched d0).mpr ⟨hd0, hid⟩, by
          simp [hwf.removalKeyed r hr.1, hri]⟩
      simp [hany] at hr
  · intro d hd hdi
    rw [List.mem_filter]
    refine ⟨hd, ?_⟩
    simp only [Bool.not_eq_true', List.any_eq_false, beq_iff_eq]
    intro m hm hmd
    have hm2 := (hmatched m).mp hm
    have : m = d := List.inj_on_of_nodup_map hwf.machineKeys hm2.1 hd hmd
    exact hdi (this ▸ hm2.2)
  · intro r hr hri
    rw [List.mem_filter]
    refine ⟨hr, ?_⟩
    simp only [Bool.not_eq_true', List.any_eq_false, beq_iff_eq]
    intro m hm hmk
    have hm2 := (hmatched m).mp hm
    have : m.Id = r.MachineID := hgk (hmk.trans (hwf.removalKeyed r hr))
    exact hri (this ▸ hm2.2)
  · intro d hd; exact (List.mem_filter.mp hd).1
  · intro r hr; exact (List.mem_filter.mp hr).1

theorem holdsDead_mem (st : State) (docID : String) (h : st.holdsDead docID) :
    ∃ d ∈ st.machines, d.DocID = docID ∧ d.Life = Life.Dead := by
  rcases h with ⟨d, hfind, hl⟩
  refine ⟨d, List.mem_of_find?_eq_some hfind, ?_, hl⟩
  have := List.find?_some hfind
  simpa using this

/-- C5: on a well-formed store, for a machine m whose stored document
carries its id: once `MarkForRemoval(m)` has succeeded, `AllMachineRemovals`
lists the id of m; `CompleteMachineRemovals(m.id)` then succeeds, and after it
`AllMachineRemovals` no longer lists the id and no machine document with the
key or the id of m is left. In general, when `CompleteMachineRemovals(ids)`
succeeds, no machine document and no removal record of a requested id that
had a machine document is left, the documents and records of ids that were
not requested are all still there, and nothing is added. -/
theorem CompleteMachineRemovals_removes (gk : String → String) (hgk : Function.Injective gk)
    (deps : List String) (st : State) (hwf : st.WF gk) :
    (∀ m : Machine, (∀ d ∈ st.machines, d.DocID = m.doc.DocID → d.Id = m.Id) →
      (m.MarkForRemoval gk st).1 = none →
      (∃ l, (AllMachineRemovals (m.MarkForRemoval gk st).2).1 = .ok l ∧ m.Id ∈ l) ∧
      (CompleteMachineRemovals gk (Machine.removeOps gk deps)
        (m.MarkForRemoval gk st).2 [m.Id]).err = none ∧
      (∃ l, (AllMachineRemovals (CompleteMachineRemovals gk (Machine.removeOps gk deps)
        (m.MarkForRemoval gk st).2 [m.Id]).st).1 = .ok l ∧ m.Id ∉ l) ∧
      (∀ d ∈ (CompleteMachineRemovals gk (Machine.removeOps gk deps)
        (m.MarkForRemoval gk st).2 [m.Id]).st.machines, d.DocID ≠ m.doc.DocID ∧ d.Id ≠ m.Id)) ∧
    (∀ ids : List String,
      (CompleteMachineRemovals gk (Machine.removeOps gk deps) st ids).err = none →
      (∀ id ∈ ids, (∃ d ∈ st.machines, d.Id = id) →
        (∃ r ∈ st.machineRemovals, r.MachineID = id) →
        (∀ d ∈ (CompleteMachineRemovals gk (Machine.removeOps gk deps) st ids).st.machines,
          d.Id ≠ id) ∧
        (∀ r ∈ (CompleteMachineRemovals gk (Machine.removeOps gk deps) st ids).st.machineRemovals,
          r.MachineID ≠ id)) ∧
      (∀ d ∈ st.machines, d.Id ∉ ids →
        d ∈ (CompleteMachineRemovals gk (Machine.removeOps gk deps) st ids).st.machines) ∧
      (∀ r ∈ st.machineRemovals, r.MachineID ∉ ids →
        r ∈ (CompleteMachineRemovals gk (Machine.removeOps gk deps) st ids).st.machineRemovals) ∧
      (∀ d ∈ (CompleteMachineRemovals gk (Machine.removeOps gk deps) st ids).st.machines,
        d ∈ st.machines) ∧
      (∀ r ∈ (CompleteMachineRemovals gk (Machine.removeOps gk deps) st ids).st.machineRemovals,
        r ∈ st.machineRemovals)) := by
  constructor
  · intro m hcons hok
    obtain ⟨hm, hf, hd⟩ := (MarkForRemoval_succeeds_core gk st m).mp hok
    rw [MarkForRemoval_commit gk st m hm hf hd]
    simp only
    have hf1 : (markedState gk st m).fault = none := (markedState_fault gk st m).trans hf
    have hwf1 := markedState_WF gk st m hwf
    have hmem := markedState_mem gk hgk st m hwf
    obtain ⟨d0, hd0, hd0k, _⟩ := holdsDead_mem st _ hd
    have hd0i : d0.Id = m.Id := hcons d0 hd0 hd0k
    have hd01 : d0 ∈ (markedState gk st m).machines := by rw [markedState_machines]; exact hd0
    have hall : unmarkedIds (markedState gk st m) [m.Id] = [] := by
      unfold unmarkedIds
      rw [List.map_eq_nil_iff, List.filter_eq_nil_iff]
      intro d _ hd2
      simp only [List.mem_singleton, Bool.and_eq_true, decide_eq_true_eq, Bool.not_eq_true',
        decide_eq_false_iff_not] at hd2
      apply hd2.2
      rw [hd2.1]
      exact List.mem_map.mpr ⟨_, hmem, rfl⟩
    have hc := CompleteMachineRemovals_commit gk deps (markedState gk st m) [m.Id] hf1 hall
    have hdel := CompleteMachineRemovals_deletes gk hgk deps (markedState gk st m) hwf1 [m.Id] hc.1
    have hgone := hdel.1 m.Id (List.mem_singleton_self _) ⟨d0, hd01, hd0i⟩
    refine ⟨⟨_, by rw [AllMachineRemovals_ok _ hf1], List.mem_map.mpr ⟨_, hmem, rfl⟩⟩, hc.1,
      ⟨_, by rw [AllMachineRemovals_ok _ hc.2.1], ?_⟩, ?_⟩
    · intro hin
      rcases List.mem_map.mp hin with ⟨r, hr, hri⟩
      exact hgone.2 r hr hri
    · intro d hd2
      refine ⟨?_, hgone.1 d hd2⟩
      intro hk
      have hd3 : d ∈ st.machines := by
        have := hdel.2.2.2.1 d hd2
        rwa [markedState_machines] at this
      exact hgone.1 d hd2 (hcons d hd3 hk)
  · intro ids hok
    have hdel := CompleteMachineRemovals_deletes gk hgk deps st hwf ids hok
    exact ⟨fun id hid hdoc _ => hdel.1 id hid hdoc, hdel.2⟩

/-- C5 at the sample store: machine 2 is marked, listed, removed and gone;
and completing the removal of machine 0 leaves machines 1 and 2 in place. -/
theorem CompleteMachineRemovals_removes_witness :
    ((∃ l, (AllMachineRemovals (sampleMachine.MarkForRemoval sampleKey sampleState).2).1 = .ok l ∧
        sampleMachine.Id ∈ l) ∧
      (CompleteMachineRemovals sampleKey (Machine.removeOps sampleKey ["statuses"])
        (sampleMachine.MarkForRemoval sampleKey sampleState).2 [sampleMachine.Id]).err = none ∧
      (∃ l, (AllMachineRemovals (CompleteMachineRemovals sampleKey
        (Machine.removeOps sampleKey ["statuses"])
        (sampleMachine.MarkForRemoval sampleKey sampleState).2 [sampleMachine.Id]).st).1 = .ok l ∧
        sampleMachine.Id ∉ l) ∧
      (∀ d ∈ (CompleteMachineRemovals sampleKey (Machine.removeOps sampleKey ["statuses"])
        (sampleMachine.MarkForRemoval sampleKey sampleState).2 [sampleMachine.Id]).st.machines,
        d.DocID ≠ sampleMachine.doc.DocID ∧ d.Id ≠ sampleMachine.Id)) ∧
    (CompleteMachineRemovals sampleKey (Machine.removeOps sampleKey ["statuses"]) sampleState
      ["0", "9"]).st.machines = [⟨"u:1", "1", .Alive⟩, ⟨"u:2", "2", .Dead⟩] ∧
    (⟨"u:1", "1", .Alive⟩ : machineDoc) ∈ (CompleteMachineRemovals sampleKey
      (Machine.removeOps sampleKey ["statuses"]) sampleState ["0", "9"]).st.machines :=
  have h := CompleteMachineRemovals_removes sampleKey sampleKey_injective ["statuses"] sampleState
    sampleState_WF
  ⟨h.1 sampleMachine (by decide) (by decide), by decide,
    (h.2 ["0", "9"] (by decide)).2.1 ⟨"u:1", "1", .Alive⟩ (by decide) (by decide)⟩

/-! ## Listing the removals -/

/-- C6: when the read succeeds, `AllMachineRemovals` returns one entry per
document of the machine-removals collection, the i-th entry being the machine
id of the i-th document, and the store is left as it was; when the read
fails, it returns no list but the error, and the store is left as it was. -/
theorem AllMachineRemovals_lists_records (st : State) :
    (st.fault = none → ∃ results : List String,
      AllMachineRemovals st = (.ok results, st) ∧
      results.length = st.machineRemovals.length ∧
      ∀ i : Nat, results[i]? = (st.machineRemovals[i]?).map (fun d => d.MachineID)) ∧
    (∀ msg : String, st.fault = some msg →
      AllMachineRemovals st = (.error (.Errorf msg), st)) := by
  constructor
  · intro hf
    exact ⟨_, AllMachineRemovals_ok st hf, by simp, fun i => by simp⟩
  · intro msg hf
    exact AllMachineRemovals_fault st msg hf

/-- C6 at the sample store, reachable and not. -/
theorem AllMachineRemovals_lists_records_witness :
    (∃ results : List String,
      AllMachineRemovals sampleState = (.ok results, sampleState) ∧
      results.length = sampleState.machineRemovals.length ∧
      ∀ i : Nat, results[i]? = (sampleState.machineRemovals[i]?).map (fun d => d.MachineID)) ∧
    AllMachineRemovals sampleDown = (.error (.Errorf "connection refused"), sampleDown) :=
  ⟨(AllMachineRemovals_lists_records sampleState).1 rfl,
    (AllMachineRemovals_lists_records sampleDown).2 "connection refused" rfl⟩

/-! ## The debug message about skipped ids -/

/-- C10, at an input where the code departs from it: machine 0 exists (and
machine ids are unique), it is requested twice, so no requested id lacks a
machine document and `collectMissingMachineIds` returns the empty list; yet
the message is logged, with nothing after the colon. Requested once, the same
id logs nothing. -/
theorem CompleteMachineRemovals_logs_on_duplicates :
    (sampleState.machines.map (fun d => d.Id)).Nodup ∧
    (∀ id ∈ ["0", "0"], ∃ d ∈ sampleState.machines, d.Id = id) ∧
    collectMissingMachineIds ["0", "0"]
      ((sampleState.machines.filter (fun d => decide (d.Id ∈ ["0", "0"]))).map newMachine) = [] ∧
    (CompleteMachineRemovals sampleKey (Machine.removeOps sampleKey ["statuses"]) sampleState
      ["0", "0"]).logged = ["skipping nonexistent machines: "] ∧
    (CompleteMachineRemovals sampleKey (Machine.removeOps sampleKey ["statuses"]) sampleState
      ["0"]).logged = [] := by
  decide

/-! ## Origins and the backup catalog -/

/-- C7: the origin built by `NewOrigin` reports the four values it was built
from; no accessor changes the origin; and two origins are equal exactly when
they were built from equal values. -/
theorem NewOrigin_accessors {Number : Type} (env machine hostname : String) (vers : Number) :
    (NewOrigin env machine hostname vers).Environment.1 = env ∧
    (NewOrigin env machine hostname vers).Machine.1 = machine ∧
    (NewOrigin env machine hostname vers).Hostname.1 = hostname ∧
    (NewOrigin env machine hostname vers).Version.1 = vers ∧
    (∀ o : Origin Number, o.Environment.2 = o ∧ o.Machine.2 = o ∧ o.Hostname.2 = o ∧
      o.Version.2 = o) ∧
    (∀ (env2 machine2 hostname2 : String) (vers2 : Number),
      NewOrigin env machine hostname vers = NewOrigin env2 machine2 hostname2 vers2 ↔
        (env = env2 ∧ machine = machine2 ∧ hostname = hostname2 ∧ vers = vers2)) := by
  refine ⟨rfl, rfl, rfl, rfl, fun o => ⟨rfl, rfl, rfl, rfl⟩, ?_⟩
  intro env2 machine2 hostname2 vers2
  simp [NewOrigin]

theorem GetBackupMetadata_append {Number : Type} (cat : List (Metadata Number))
    (d : Metadata Number) (h : ∀ x ∈ cat, x.id ≠ d.id) :
    GetBackupMetadata (cat ++ [d]) d.id = .ok d := by
  have hnone : cat.find? (fun x => x.id == d.id) = none := by
    rw [List.find?_eq_none]
    intro x hx
    simpa using h x hx
  simp [GetBackupMetadata, List.find?_append, hnone]

theorem le_foldr_max (l : List Nat) : ∀ n ∈ l, n ≤ l.foldr max 0 := by
  induction l with
  | nil => intro n h; cases h
  | cons a t ih =>
    intro n h
    rw [List.foldr_cons]
    rcases List.mem_cons.mp h with rfl | ht
    · exact le_max_left _ _
    · exact le_trans (ih n ht) (le_max_right _ _)

theorem newBackupID_fresh (used : List String) : newBackupID used ∉ used := by
  intro h
  have h1 : (newBackupID used).length ≤ (used.map String.length).foldr max 0 :=
    le_foldr_max _ _ (List.mem_map_of_mem String.length h)
  have h2 : (newBackupID used).length = (used.map String.length).foldr max 0 + 1 := by
    simp [newBackupID, String.length]
  omega

theorem Unix_persisted (t : Int) : Unix (Unix t * 1000000000) = Unix t := by
  unfold Unix
  exact Int.mul_ediv_cancel _ (by decide)

theorem Finish_finished {Number : Type} (m : Metadata Number) (size : Int)
    (checksum checksumFormat : String) (hc : checksum ≠ "") (hs : size ≠ 0) :
    (m.Finish size checksum checksumFormat).finished = true := by
  simp [Metadata.Finish, Metadata.finished, hc, hs]

/-- C8: for every finished record and every catalog, the insert succeeds and
returns an identifier; retrieving that identifier succeeds with a record that
carries it and the notes, timestamp (to the second), checksum, checksum
format, size, origin and stored flag of the inserted record, so the flag is
false when the record was not stored. Retrieving an id no record of the
catalog carries fails with NotFound. -/
theorem AddBackupMetadata_roundtrip {Number : Type} (cat : List (Metadata Number))
    (metadata : Metadata Number) (hfin : metadata.finished = true) :
    (∃ (id : String) (cat2 : List (Metadata Number)) (got : Metadata Number),
      AddBackupMetadata cat metadata = (.ok id, cat2) ∧
      GetBackupMetadata cat2 id = .ok got ∧
      got.id = id ∧ got.notes = metadata.notes ∧
      Unix got.timestamp = Unix metadata.timestamp ∧
      got.checksum = metadata.checksum ∧ got.checksumFormat = metadata.checksumFormat ∧
      got.size = metadata.size ∧ got.origin = metadata.origin ∧
      got.stored = metadata.stored ∧ (metadata.stored = false → got.stored = false)) ∧
    (∀ id : String, (∀ d ∈ cat, d.id ≠ id) → GetBackupMetadata cat id = .error .NotFound) := by
  constructor
  · have hfresh := newBackupID_fresh (cat.map (fun d => d.id))
    have hany : cat.any (fun d => d.id == newBackupID (cat.map (fun d => d.id))) = false := by
      rw [List.any_eq_false]
      intro d hd hid
      exact hfresh (List.mem_map.mpr ⟨d, hd, by simpa using hid⟩)
    have hne : ∀ x ∈ cat, x.id ≠ newBackupID (cat.map (fun d => d.id)) :=
      fun x hx hid => hfresh (List.mem_map.mpr ⟨x, hx, hid⟩)
    have hget := GetBackupMetadata_append cat
      { metadata with id := newBackupID (cat.map (fun d => d.id)), timestamp := Unix metadata.timestamp * 1000000000 }
      hne
    refine ⟨newBackupID (cat.map (fun d => d.id)), _, _, ?_, hget, ?_⟩
    · simp [AddBackupMetadata, AddBackupMetadataID, hfin, hany]
    · exact ⟨rfl, rfl, Unix_persisted _, rfl, rfl, rfl, rfl, rfl, fun h => h⟩
  · intro id h
    have hnone : cat.find? (fun x => x.id == id) = none := by
      rw [List.find?_eq_none]
      intro x hx
      simpa using h x hx
    simp [GetBackupMetadata, hnone]

/-- C8 at the sample catalog: the record built as the test builds it is
finished; it is stored under a generated id, and comes back with its fields,
the timestamp cut to the second; the id "b-0" was never inserted. -/
theorem AddBackupMetadata_roundtrip_witness :
    sampleMetadata.finished = true ∧
    (∃ (id : String) (cat2 : List (Metadata Nat)) (got : Metadata Nat),
      AddBackupMetadata sampleCatalog sampleMetadata = (.ok id, cat2) ∧
      GetBackupMetadata cat2 id = .ok got ∧
      got.id = id ∧ got.notes = sampleMetadata.notes ∧
      Unix got.timestamp = Unix sampleMetadata.timestamp ∧
      got.checksum = sampleMetadata.checksum ∧
      got.checksumFormat = sampleMetadata.checksumFormat ∧
      got.size = sampleMetadata.size ∧ got.origin = sampleMetadata.origin ∧
      got.stored = sampleMetadata.stored ∧ (sampleMetadata.stored = false → got.stored = false)) ∧
    GetBackupMetadata sampleCatalog "b-0" = .error .NotFound ∧
    (AddBackupMetadata sampleCatalog sampleMetadata).1 = .ok "bbbbb" :=
  have h := AddBackupMetadata_roundtrip sampleCatalog sampleMetadata (by decide)
  ⟨by decide, h.1, h.2 "b-0" (by decide), rfl⟩

/-- C1 at the sample store: machine 2 is Dead in the snapshot and in the
store, and is accepted; the snapshot of a machine that is not there is
refused and the store is left as it was. -/
theorem MarkForRemoval_succeeds_iff_witness :
    (sampleMachine.MarkForRemoval sampleKey sampleState).1 = none ∧
    ((Machine.MarkForRemoval sampleKey sampleState ⟨⟨"u:7", "7", .Dead⟩⟩).1 ≠ none →
      (Machine.MarkForRemoval sampleKey sampleState ⟨⟨"u:7", "7", .Dead⟩⟩).2 = sampleState) :=
  ⟨(MarkForRemoval_succeeds_iff sampleKey sampleState sampleMachine).1.mpr
      ⟨rfl, rfl, ⟨_, rfl, rfl⟩⟩,
    (MarkForRemoval_succeeds_iff sampleKey sampleState ⟨⟨"u:7", "7", .Dead⟩⟩).2.1⟩

end Juju
